import Mathlib

/-!
Verification of the bounded-concurrency database-call limiter of the
Ai-Carrer-Coach-SENSAI repository.

The repository wraps the `p-limit` npm package in a tiny `dbLimit` module
(two variants are present in the sources):

* variant 0: `const limit = pLimit(parseInt(process.env.DB_CONCURRENCY_LIMIT || "10", 10));`
             `export const dbLimit = (fn) => limit(fn);`
* variant 1: same construction; `dbLimit(operation)` checks
             `typeof operation === "function"` and submits
             `() => operation()` for a function, `() => operation` otherwise.

The limiter itself (`p-limit`) is a dependency whose code is not part of the
repository sources; its behaviour (the admission gate) is modelled from the
specification's admission algorithm.  Operations are modelled as pure
outcomes `Except ε α`: a resolved value `Except.ok v` or a failure
`Except.error e` (a synchronous throw and an eventual rejection both
collapse to `Except.error`).
-/

namespace DbLimit

/--
Modelled from the spec: the state of the concurrency gate implemented by the
`p-limit` dependency (whose source is not part of the repository).
`limit` is the fixed ceiling, `running` the identifiers of operations
currently executing, `queue` the FIFO queue of pending identifiers,
`started` the admission history (identifiers in admission order),
`nextId` the identifier the next submission will receive, and
`done` the list of completed operations paired with the result the gate
delivered to each one's caller.
-/
structure GateState (ε α : Type) where
  limit : Nat
  running : List Nat
  queue : List Nat
  started : List Nat
  nextId : Nat
  done : List (Nat × Except ε α)
deriving Repr

/-- An externally visible gate event: a submission of a new operation, or
the resolution of the running operation with identifier `i`. -/
inductive GateEv where
  | submit
  | complete (i : Nat)
deriving DecidableEq, Repr

/--
Modelled from the spec: one transition of the gate (the `p-limit`
dependency's admission algorithm).  On submission, if `active < limit` the
operation is admitted immediately, otherwise it is appended to the tail of
the queue.  On completion of a running operation the slot is released, the
operation's own outcome `ops i` is delivered to its caller, and if the
queue is non-empty its head is admitted.  A `complete i` event for an
identifier that is not running is a no-op.
-/
def step (ops : Nat → Except ε α) (s : GateState ε α) : GateEv → GateState ε α
  | .submit =>
      if s.running.length < s.limit then
        ⟨s.limit, s.running ++ [s.nextId], s.queue, s.started ++ [s.nextId],
         s.nextId + 1, s.done⟩
      else
        ⟨s.limit, s.running, s.queue ++ [s.nextId], s.started,
         s.nextId + 1, s.done⟩
  | .complete i =>
      if i ∈ s.running then
        match s.queue with
        | [] =>
            ⟨s.limit, s.running.erase i, [], s.started, s.nextId,
             s.done ++ [(i, ops i)]⟩
        | h :: t =>
            ⟨s.limit, s.running.erase i ++ [h], t, s.started ++ [h],
             s.nextId, s.done ++ [(i, ops i)]⟩
      else s

/-- Run the gate over a sequence of events. -/
def gateRun (ops : Nat → Except ε α) (s : GateState ε α) (evs : List GateEv) :
    GateState ε α :=
  evs.foldl (step ops) s

/-- Modelled from the spec: a freshly constructed gate with ceiling `L`:
no operation running, queued, started or completed. -/
def initGate (ε α : Type) (L : Nat) : GateState ε α :=
  ⟨L, [], [], [], 0, []⟩

/--
The reachability invariant of the gate:
the admission history followed by the queue is exactly the submission
history `[0, 1, ..., nextId - 1]` (so nothing is dropped or reordered);
the queue is non-empty only at saturation; the number of running
operations never exceeds the ceiling; running identifiers are distinct
and each has been admitted.
-/
def Inv (s : GateState ε α) : Prop :=
  s.started ++ s.queue = List.range s.nextId ∧
  (s.queue ≠ [] → s.running.length = s.limit) ∧
  s.running.length ≤ s.limit ∧
  s.running.Nodup ∧
  (∀ x ∈ s.running, x ∈ s.started)

theorem inv_initGate (ε α : Type) (L : Nat) : Inv (initGate ε α L) := by
  refine ⟨rfl, ?_, ?_, ?_, ?_⟩ <;> simp [initGate]

theorem mem_started_lt_nextId {s : GateState ε α} (hs : Inv s)
    {x : Nat} (hx : x ∈ s.started) : x < s.nextId := by
  have : x ∈ s.started ++ s.queue := List.mem_append_left _ hx
  rw [hs.1] at this
  exact List.mem_range.mp this

theorem mem_queue_lt_nextId {s : GateState ε α} (hs : Inv s)
    {x : Nat} (hx : x ∈ s.queue) : x < s.nextId := by
  have : x ∈ s.started ++ s.queue := List.mem_append_right _ hx
  rw [hs.1] at this
  exact List.mem_range.mp this

theorem started_queue_disjoint {s : GateState ε α} (hs : Inv s)
    {x : Nat} (hx : x ∈ s.queue) : x ∉ s.started := by
  have hnd : (s.started ++ s.queue).Nodup := by
    rw [hs.1]; exact List.nodup_range _
  rcases List.nodup_append.mp hnd with ⟨-, -, hdisj⟩
  intro hxs
  exact hdisj hxs hx

theorem inv_step (ops : Nat → Except ε α) {s : GateState ε α} (hs : Inv s)
    (e : GateEv) : Inv (step ops s e) := by
  obtain ⟨h1, h2, h3, h4, h5⟩ := hs
  cases e with
  | submit =>
      by_cases hcap : s.running.length < s.limit
      · -- immediate admission: the queue must be empty
        have hq : s.queue = [] := by
          by_contra hne
          exact absurd (h2 hne) (Nat.ne_of_lt hcap)
        simp only [step, if_pos hcap]
        refine ⟨?_, ?_, ?_, ?_, ?_⟩
        · simp only [hq, List.append_nil] at h1 ⊢
          rw [List.range_succ, h1]
        · intro h; simp [hq] at h
        · simpa using hcap
        · refine List.Nodup.append h4 (List.nodup_singleton _) ?_
          intro x hx hx'
          have hxs := h5 x hx
          have := mem_started_lt_nextId ⟨h1, h2, h3, h4, h5⟩ hxs
          simp only [List.mem_singleton] at hx'
          omega
        · intro x hx
          rcases List.mem_append.mp hx with hx | hx
          · exact List.mem_append_left _ (h5 x hx)
          · exact List.mem_append_right _ hx
      · simp only [step, if_neg hcap]
        refine ⟨?_, ?_, ?_, h4, h5⟩
        · rw [← List.append_assoc, h1, List.range_succ]
        · intro _; dsimp only; omega
        · exact h3
  | complete i =>
      by_cases hi : i ∈ s.running
      · have herase : (s.running.erase i).length = s.running.length - 1 :=
          List.length_erase_of_mem hi
        have hpos : 0 < s.running.length := List.length_pos.mpr
          (List.ne_nil_of_mem hi)
        cases hq : s.queue with
        | nil =>
            simp only [step, if_pos hi, hq]
            refine ⟨?_, ?_, ?_, h4.erase i, ?_⟩
            · simpa [hq] using h1
            · intro h; simp at h
            · dsimp only; rw [herase]; omega
            · intro x hx
              exact h5 x (List.mem_of_mem_erase hx)
        | cons h t =>
            have hhq : h ∈ s.queue := by rw [hq]; exact List.mem_cons_self h t
            have hlim : s.running.length = s.limit := h2 (by simp [hq])
            simp only [step, if_pos hi, hq]
            refine ⟨?_, ?_, ?_, ?_, ?_⟩
            · rw [List.append_assoc, List.singleton_append, ← hq, h1]
            · intro ht
              dsimp only
              rw [List.length_append, herase, List.length_singleton]
              omega
            · dsimp only
              rw [List.length_append, herase, List.length_singleton]
              omega
            · refine List.Nodup.append (h4.erase i) (List.nodup_singleton _) ?_
              intro x hx hx'
              simp only [List.mem_singleton] at hx'
              subst hx'
              have hxs := h5 x (List.mem_of_mem_erase hx)
              exact started_queue_disjoint ⟨h1, h2, h3, h4, h5⟩ hhq hxs
            · intro x hx
              rcases List.mem_append.mp hx with hx | hx
              · exact List.mem_append_left _ (h5 x (List.mem_of_mem_erase hx))
              · exact List.mem_append_right _ hx
      · simpa [step, if_neg hi] using ⟨h1, h2, h3, h4, h5⟩

theorem inv_gateRun (ops : Nat → Except ε α) {s : GateState ε α} (hs : Inv s)
    (evs : List GateEv) : Inv (gateRun ops s evs) := by
  induction evs generalizing s with
  | nil => exact hs
  | cons e evs ih => exact ih (inv_step ops hs e)

theorem limit_step (ops : Nat → Except ε α) (s : GateState ε α) (e : GateEv) :
    (step ops s e).limit = s.limit := by
  cases e with
  | submit =>
      by_cases hcap : s.running.length < s.limit <;>
        simp [step, hcap]
  | complete i =>
      by_cases hi : i ∈ s.running
      · cases hq : s.queue <;> simp [step, hi, hq]
      · simp [step, hi]

theorem limit_gateRun (ops : Nat → Except ε α) (s : GateState ε α)
    (evs : List GateEv) : (gateRun ops s evs).limit = s.limit := by
  induction evs generalizing s with
  | nil => rfl
  | cons e evs ih => rw [gateRun, List.foldl_cons, ← gateRun, ih, limit_step]

/-- In an invariant state the admission history is an initial segment of the
submission order: `started = [0, 1, ..., started.length - 1]`. -/
theorem started_eq_range {s : GateState ε α} (hs : Inv s) :
    s.started = List.range s.started.length := by
  have h1 := hs.1
  have hlen : s.started.length ≤ s.nextId := by
    have := congrArg List.length h1
    simp only [List.length_append, List.length_range] at this
    omega
  calc s.started
      = (s.started ++ s.queue).take s.started.length := (List.take_left _ _).symm
    _ = (List.range s.nextId).take s.started.length := by rw [h1]
    _ = List.range (min s.started.length s.nextId) := List.take_range _ _
    _ = List.range s.started.length := by rw [Nat.min_eq_left hlen]

theorem get_of_eq_range {l : List Nat} (hl : l = List.range l.length)
    (i : Nat) (h : i < l.length) : l.get ⟨i, h⟩ = i := by
  obtain ⟨n, hn⟩ : ∃ n, l = List.range n := ⟨l.length, hl⟩
  subst hn
  simp [List.get_eq_getElem, List.getElem_range]

/-- Every result recorded in `done` is the completed operation's own
outcome, unchanged. -/
theorem done_step (ops : Nat → Except ε α) {s : GateState ε α}
    (hd : ∀ p ∈ s.done, p.2 = ops p.1) (e : GateEv) :
    ∀ p ∈ (step ops s e).done, p.2 = ops p.1 := by
  cases e with
  | submit =>
      by_cases hcap : s.running.length < s.limit <;>
        simpa [step, hcap] using hd
  | complete i =>
      by_cases hi : i ∈ s.running
      · cases hq : s.queue with
        | nil =>
            intro p hp
            simp only [step, if_pos hi, hq] at hp
            rcases List.mem_append.mp hp with hp | hp
            · exact hd p hp
            · simp only [List.mem_singleton] at hp
              subst hp; rfl
        | cons h t =>
            intro p hp
            simp only [step, if_pos hi, hq] at hp
            rcases List.mem_append.mp hp with hp | hp
            · exact hd p hp
            · simp only [List.mem_singleton] at hp
              subst hp; rfl
      · simpa [step, hi] using hd

theorem done_gateRun (ops : Nat → Except ε α) {s : GateState ε α}
    (hd : ∀ p ∈ s.done, p.2 = ops p.1) (evs : List GateEv) :
    ∀ p ∈ (gateRun ops s evs).done, p.2 = ops p.1 := by
  induction evs generalizing s with
  | nil => exact hd
  | cons e evs ih => exact ih (done_step ops hd e)

/-- C1: for every gate constructed with limit `L` and every sequence of
operations submitted through run, at every point in time the number of
operations currently executing (admitted and not yet resolved) is at most
`L`: the gate's active count never exceeds its limit. -/
theorem capacity_bound (ε α : Type) (ops : Nat → Except ε α) (L : Nat)
    (evs : List GateEv) :
    (gateRun ops (initGate ε α L) evs).running.length ≤ L := by
  have hinv := inv_gateRun ops (inv_initGate ε α L) evs
  have hlim := limit_gateRun ops (initGate ε α L) evs
  have hb := hinv.2.2.1
  rw [hlim] at hb
  exact hb

/-- C2: queued operations are admitted strictly in submission order.  If
operation `a` was submitted before operation `b` (identifiers are assigned
in submission order, so `a < b`) and `b` has been admitted, then both sit
in the admission history exactly at their submission positions: `a` at
position `a` and `b` at position `b`, so `a` was admitted strictly before
`b` — no reordering and no priority, in particular for two operations
queued while the gate was at capacity. -/
theorem fifo_admission (ε α : Type) (ops : Nat → Except ε α) (L : Nat)
    (evs : List GateEv) (a b : Nat) (hab : a < b)
    (hb : b ∈ (gateRun ops (initGate ε α L) evs).started) :
    ∃ (ha' : a < (gateRun ops (initGate ε α L) evs).started.length)
      (hb' : b < (gateRun ops (initGate ε α L) evs).started.length),
      (gateRun ops (initGate ε α L) evs).started.get ⟨a, ha'⟩ = a ∧
      (gateRun ops (initGate ε α L) evs).started.get ⟨b, hb'⟩ = b := by
  have hinv := inv_gateRun ops (inv_initGate ε α L) evs
  have hrange := started_eq_range hinv
  rw [hrange] at hb
  have hblen : b < (gateRun ops (initGate ε α L) evs).started.length :=
    List.mem_range.mp hb
  have halen : a < (gateRun ops (initGate ε α L) evs).started.length :=
    Nat.lt_trans hab hblen
  exact ⟨halen, hblen, get_of_eq_range hrange a halen,
    get_of_eq_range hrange b hblen⟩

/-- Witness for C2: with limit 1 and events submit, submit, submit,
complete 0, operation 1 (queued while the gate was saturated) is admitted
at position 1, after operation 0. -/
theorem fifo_admission_witness :
    (0 : Nat) < 1 ∧
    1 ∈ (gateRun (fun _ => (Except.ok 0 : Except Unit Nat))
          (initGate Unit Nat 1)
          [GateEv.submit, GateEv.submit, GateEv.submit, GateEv.complete 0]).started ∧
    ∃ (ha' : 0 < (gateRun (fun _ => (Except.ok 0 : Except Unit Nat))
          (initGate Unit Nat 1)
          [GateEv.submit, GateEv.submit, GateEv.submit, GateEv.complete 0]).started.length)
      (hb' : 1 < (gateRun (fun _ => (Except.ok 0 : Except Unit Nat))
          (initGate Unit Nat 1)
          [GateEv.submit, GateEv.submit, GateEv.submit, GateEv.complete 0]).started.length),
      (gateRun (fun _ => (Except.ok 0 : Except Unit Nat))
          (initGate Unit Nat 1)
          [GateEv.submit, GateEv.submit, GateEv.submit, GateEv.complete 0]).started.get ⟨0, ha'⟩ = 0 ∧
      (gateRun (fun _ => (Except.ok 0 : Except Unit Nat))
          (initGate Unit Nat 1)
          [GateEv.submit, GateEv.submit, GateEv.submit, GateEv.complete 0]).started.get ⟨1, hb'⟩ = 1 :=
  ⟨by decide, by decide,
   fifo_admission Unit Nat (fun _ => Except.ok 0) 1
     [GateEv.submit, GateEv.submit, GateEv.submit, GateEv.complete 0]
     0 1 (by decide) (by decide)⟩

/-- C3: the gate is transparent.  Every result delivered to a completed
operation's caller is exactly the outcome the operation itself produced:
a success value is not transformed and a failure is neither swallowed nor
wrapped. -/
theorem transparency (ε α : Type) (ops : Nat → Except ε α) (L : Nat)
    (evs : List GateEv) (i : Nat) (r : Except ε α)
    (h : (i, r) ∈ (gateRun ops (initGate ε α L) evs).done) : r = ops i := by
  have hd : ∀ p ∈ (initGate ε α L).done, p.2 = ops p.1 := by
    intro p hp
    simp [initGate] at hp
  exact done_gateRun ops hd evs (i, r) h

/-- Witness for C3: with limit 1, after submit then complete 0 the caller
of operation 0 receives exactly `Except.ok 3`, the outcome of its own
operation. -/
theorem transparency_witness :
    ((0, (Except.ok 3 : Except Unit Nat)) ∈
      (gateRun (fun _ => (Except.ok 3 : Except Unit Nat))
        (initGate Unit Nat 1) [GateEv.submit, GateEv.complete 0]).done) ∧
    (Except.ok 3 : Except Unit Nat) = (fun _ => (Except.ok 3 : Except Unit Nat)) 0 :=
  ⟨List.mem_singleton.mpr rfl,
   transparency Unit Nat (fun _ => Except.ok 3) 1
     [GateEv.submit, GateEv.complete 0] 0 (Except.ok 3)
     (List.mem_singleton.mpr rfl)⟩

/-- Replace the delivered results recorded in `done` by `f`, leaving the
control state (running, queue, admission history, ids) untouched. -/
def mapDone (f : Nat × Except ε α → Nat × Except ε α) (s : GateState ε α) :
    GateState ε α :=
  ⟨s.limit, s.running, s.queue, s.started, s.nextId, s.done.map f⟩

theorem step_mapDone (ops ops' : Nat → Except ε α)
    (f : Nat × Except ε α → Nat × Except ε α)
    (hf : ∀ k, f (k, ops k) = (k, ops' k)) (s : GateState ε α) (e : GateEv) :
    step ops' (mapDone f s) e = mapDone f (step ops s e) := by
  cases e with
  | submit =>
      by_cases hcap : s.running.length < s.limit <;>
        simp [step, mapDone, hcap]
  | complete i =>
      by_cases hi : i ∈ s.running
      · cases hq : s.queue with
        | nil => simp [step, mapDone, hi, hq, hf i]
        | cons h t => simp [step, mapDone, hi, hq, hf i]
      · simp [step, mapDone, hi]

theorem gateRun_mapDone (ops ops' : Nat → Except ε α)
    (f : Nat × Except ε α → Nat × Except ε α)
    (hf : ∀ k, f (k, ops k) = (k, ops' k)) (s : GateState ε α)
    (evs : List GateEv) :
    gateRun ops' (mapDone f s) evs = mapDone f (gateRun ops s evs) := by
  induction evs generalizing s with
  | nil => rfl
  | cons e evs ih =>
      have h1 : gateRun ops' (mapDone f s) (e :: evs) =
          gateRun ops' (step ops' (mapDone f s) e) evs := rfl
      have h2 : gateRun ops s (e :: evs) =
          gateRun ops (step ops s e) evs := rfl
      rw [h1, h2, step_mapDone ops ops' f hf, ih]

/-- C4: a failing operation is treated identically to a succeeding one.
If `ops` and `ops'` differ only in the outcome of operation `i` (say `ops`
makes it fail where `ops'` makes it succeed), then after any event
sequence the two gates have identical running sets, queues, admission
histories and id counters — so the failing operation still releases its
slot and the next queued operation is admitted exactly as for a success,
and the gate never gets stuck — and every other operation's delivered
result is unchanged: the failure propagates only to its own caller. -/
theorem failure_isolation (ε α : Type) (ops ops' : Nat → Except ε α)
    (i : Nat) (hagree : ∀ j, j ≠ i → ops j = ops' j) (L : Nat)
    (evs : List GateEv) :
    (gateRun ops' (initGate ε α L) evs).running =
      (gateRun ops (initGate ε α L) evs).running ∧
    (gateRun ops' (initGate ε α L) evs).queue =
      (gateRun ops (initGate ε α L) evs).queue ∧
    (gateRun ops' (initGate ε α L) evs).started =
      (gateRun ops (initGate ε α L) evs).started ∧
    (gateRun ops' (initGate ε α L) evs).nextId =
      (gateRun ops (initGate ε α L) evs).nextId ∧
    ∀ j r, j ≠ i →
      ((j, r) ∈ (gateRun ops' (initGate ε α L) evs).done ↔
        (j, r) ∈ (gateRun ops (initGate ε α L) evs).done) := by
  have hf : ∀ k, (fun p : Nat × Except ε α =>
      if p.1 = i then (i, ops' i) else p) (k, ops k) = (k, ops' k) := by
    intro k
    by_cases hk : k = i
    · subst hk; simp
    · simp only [if_neg hk]
      rw [hagree k hk]
  have hinit : mapDone (fun p : Nat × Except ε α =>
      if p.1 = i then (i, ops' i) else p) (initGate ε α L) = initGate ε α L := by
    simp [mapDone, initGate]
  have key := gateRun_mapDone ops ops'
    (fun p : Nat × Except ε α => if p.1 = i then (i, ops' i) else p) hf
    (initGate ε α L) evs
  rw [hinit] at key
  rw [key]
  refine ⟨rfl, rfl, rfl, rfl, ?_⟩
  intro j r hj
  constructor
  · intro hm
    simp only [mapDone, List.mem_map] at hm
    obtain ⟨p, hp, hfp⟩ := hm
    by_cases hpi : p.1 = i
    · rw [if_pos hpi] at hfp
      have : i = j := congrArg Prod.fst hfp
      exact absurd this.symm hj
    · rw [if_neg hpi] at hfp
      rwa [hfp] at hp
  · intro hm
    simp only [mapDone, List.mem_map]
    exact ⟨(j, r), hm, by simp [hj]⟩

/-- An operation scheme in which operation 0 fails and every other
operation succeeds with value 1. -/
def opsFail : Nat → Except String Nat :=
  fun j => if j = 0 then Except.error "boom" else Except.ok 1

/-- An operation scheme in which every operation succeeds with value 1. -/
def opsOk : Nat → Except String Nat := fun _ => Except.ok 1

/-- Witness for C4: with limit 1, events submit, submit, complete 0,
complete 1, the gate behaves identically whether operation 0 fails
(`opsFail`) or succeeds (`opsOk`): the running set is the same (operation
0 released its slot, operation 1 was admitted and finished) and operation
1's caller receives `Except.ok 1` in both worlds. -/
theorem failure_isolation_witness :
    (∀ j : Nat, j ≠ 0 → opsFail j = opsOk j) ∧
    (gateRun opsOk (initGate String Nat 1)
        [GateEv.submit, GateEv.submit, GateEv.complete 0, GateEv.complete 1]).running =
      (gateRun opsFail (initGate String Nat 1)
        [GateEv.submit, GateEv.submit, GateEv.complete 0, GateEv.complete 1]).running ∧
    (gateRun opsOk (initGate String Nat 1)
        [GateEv.submit, GateEv.submit, GateEv.complete 0, GateEv.complete 1]).started =
      (gateRun opsFail (initGate String Nat 1)
        [GateEv.submit, GateEv.submit, GateEv.complete 0, GateEv.complete 1]).started ∧
    ((1, Except.ok 1) ∈ (gateRun opsOk (initGate String Nat 1)
        [GateEv.submit, GateEv.submit, GateEv.complete 0, GateEv.complete 1]).done ↔
      (1, Except.ok 1) ∈ (gateRun opsFail (initGate String Nat 1)
        [GateEv.submit, GateEv.submit, GateEv.complete 0, GateEv.complete 1]).done) :=
  ⟨fun j hj => by simp [opsFail, opsOk, hj],
   (failure_isolation String Nat opsFail opsOk 0
      (fun j hj => by simp [opsFail, opsOk, hj]) 1
      [GateEv.submit, GateEv.submit, GateEv.complete 0, GateEv.complete 1]).1,
   (failure_isolation String Nat opsFail opsOk 0
      (fun j hj => by simp [opsFail, opsOk, hj]) 1
      [GateEv.submit, GateEv.submit, GateEv.complete 0, GateEv.complete 1]).2.2.1,
   (failure_isolation String Nat opsFail opsOk 0
      (fun j hj => by simp [opsFail, opsOk, hj]) 1
      [GateEv.submit, GateEv.submit, GateEv.complete 0, GateEv.complete 1]).2.2.2.2
      1 (Except.ok 1) (by decide)⟩

/-- Draining: from any invariant state of a gate with positive limit there
is a sequence of pure completion events after which the queue is empty. -/
theorem drain (ops : Nat → Except ε α) :
    ∀ (n : Nat) (s : GateState ε α), Inv s → 1 ≤ s.limit →
    s.queue.length = n →
    ∃ evs, (∀ e ∈ evs, e ≠ GateEv.submit) ∧
      (gateRun ops s evs).queue = [] ∧
      (gateRun ops s evs).nextId = s.nextId ∧
      Inv (gateRun ops s evs) := by
  intro n
  induction n with
  | zero =>
      intro s hs hL hq
      exact ⟨[], by simp, List.length_eq_zero.mp hq, rfl, hs⟩
  | succ n ih =>
      intro s hs hL hq
      cases hqe : s.queue with
      | nil => rw [hqe] at hq; simp at hq
      | cons h t =>
          have hql : s.queue ≠ [] := by rw [hqe]; simp
          have hrl : s.running.length = s.limit := hs.2.1 hql
          have hrpos : 0 < s.running.length := by omega
          cases hre : s.running with
          | nil => rw [hre] at hrpos; simp at hrpos
          | cons r rest =>
              have hr : r ∈ s.running := by
                rw [hre]; exact List.mem_cons_self r rest
              have hstep : step ops s (GateEv.complete r) =
                  ⟨s.limit, s.running.erase r ++ [h], t, s.started ++ [h],
                   s.nextId, s.done ++ [(r, ops r)]⟩ := by
                simp [step, hr, hqe]
              have hinv' : Inv (step ops s (GateEv.complete r)) :=
                inv_step ops hs (GateEv.complete r)
              have hL' : 1 ≤ (step ops s (GateEv.complete r)).limit := by
                rw [limit_step]; exact hL
              have hq' : (step ops s (GateEv.complete r)).queue.length = n := by
                rw [hstep]
                have : (h :: t).length = n + 1 := by rw [← hqe]; exact hq
                simpa using Nat.succ_injective this
              obtain ⟨evs, hns, hq0, hnext, hfin⟩ :=
                ih (step ops s (GateEv.complete r)) hinv' hL' hq'
              refine ⟨GateEv.complete r :: evs, ?_, ?_, ?_, ?_⟩
              · intro e he
                rcases List.mem_cons.mp he with he | he
                · subst he; simp
                · exact hns e he
              · rw [gateRun, List.foldl_cons, ← gateRun]; exact hq0
              · rw [gateRun, List.foldl_cons, ← gateRun, hnext, hstep]
              · rw [gateRun, List.foldl_cons, ← gateRun]; exact hfin

/-- C8: no submitted operation is permanently starved.  Provided the gate
was constructed with a positive limit (which construction guarantees) and
every admitted operation eventually resolves, every submitted operation
eventually begins executing: after any event sequence there is a
continuation consisting only of completion events after which every
submitted identifier is in the admission history. -/
theorem liveness (ε α : Type) (ops : Nat → Except ε α) (L : Nat)
    (evs : List GateEv) (hL : 1 ≤ L) :
    ∃ evs', (∀ e ∈ evs', e ≠ GateEv.submit) ∧
      ∀ i, i < (gateRun ops (initGate ε α L) evs).nextId →
        i ∈ (gateRun ops (gateRun ops (initGate ε α L) evs) evs').started := by
  have hinv := inv_gateRun ops (inv_initGate ε α L) evs
  have hlim := limit_gateRun ops (initGate ε α L) evs
  have hL' : 1 ≤ (gateRun ops (initGate ε α L) evs).limit := by
    rw [hlim]; exact hL
  obtain ⟨evs', hns, hq0, hnext, hfin⟩ :=
    drain ops (gateRun ops (initGate ε α L) evs).queue.length
      (gateRun ops (initGate ε α L) evs) hinv hL' rfl
  refine ⟨evs', hns, ?_⟩
  intro i hi
  have h1 := hfin.1
  rw [hq0, List.append_nil] at h1
  rw [h1, hnext]
  exact List.mem_range.mpr hi

/-- Witness for C8: with limit 1 and two submissions (the second queued),
there is a completion-only continuation after which both operations have
started. -/
theorem liveness_witness :
    (1 : Nat) ≤ 1 ∧
    ∃ evs', (∀ e ∈ evs', e ≠ GateEv.submit) ∧
      ∀ i, i < (gateRun (fun _ => (Except.ok 0 : Except Unit Nat))
          (initGate Unit Nat 1) [GateEv.submit, GateEv.submit]).nextId →
        i ∈ (gateRun (fun _ => (Except.ok 0 : Except Unit Nat))
          (gateRun (fun _ => (Except.ok 0 : Except Unit Nat))
            (initGate Unit Nat 1) [GateEv.submit, GateEv.submit]) evs').started :=
  ⟨by decide,
   liveness Unit Nat (fun _ => Except.ok 0) 1
     [GateEv.submit, GateEv.submit] (by decide)⟩

/-! ### Configuration: `pLimit(parseInt(process.env.DB_CONCURRENCY_LIMIT || "10", 10))` -/

/-- Whitespace skipped by JavaScript `parseInt` before the number. -/
def isJsSpace (c : Char) : Bool :=
  c == ' ' || c == '\t' || c == '\n' || c == '\r'

/-- Decimal value of a list of digit characters. -/
def digitsVal (ds : List Char) : Nat :=
  ds.foldl (fun a c => a * 10 + (c.toNat - '0'.toNat)) 0

/-- Model of JavaScript `parseInt(s, 10)`: skip leading whitespace, read an
optional sign, then the longest prefix of decimal digits.  `none` models
the `NaN` result produced when no digit is present. -/
def parseIntBase10 (s : String) : Option Int :=
  match s.data.dropWhile isJsSpace with
  | '-' :: rest =>
      let ds := rest.takeWhile Char.isDigit
      if ds.isEmpty then none else some (-(digitsVal ds : Int))
  | '+' :: rest =>
      let ds := rest.takeWhile Char.isDigit
      if ds.isEmpty then none else some (digitsVal ds : Int)
  | rest =>
      let ds := rest.takeWhile Char.isDigit
      if ds.isEmpty then none else some (digitsVal ds : Int)

/-- The string handed to `parseInt` by
`process.env.DB_CONCURRENCY_LIMIT || "10"`: an absent variable and the
empty string are falsy and replaced by the literal `"10"`; any other
string (numeric or not) is kept. -/
def envLimitString (env : Option String) : String :=
  match env with
  | none => "10"
  | some s => if s = "" then "10" else s

/-- The configuration failure of gate construction. -/
inductive ConfigError where
  | invalidConfiguration
deriving DecidableEq, Repr

/-- Modelled from the spec: the `pLimit(n)` constructor (the `p-limit`
dependency is not part of the repository sources) fails with
`InvalidConfiguration` unless the requested ceiling is a positive
integer; the argument `none` models the non-number `NaN`. -/
def pLimitMake (n : Option Int) : Except ConfigError Nat :=
  match n with
  | none => Except.error ConfigError.invalidConfiguration
  | some z =>
      if 0 < z then Except.ok z.toNat
      else Except.error ConfigError.invalidConfiguration

/-- The limit construction shared by both dbLimit variants:
`pLimit(parseInt(process.env.DB_CONCURRENCY_LIMIT || "10", 10))`,
returning the gate ceiling or the construction failure. -/
def dbLimitConstruct (env : Option String) : Except ConfigError Nat :=
  pLimitMake (parseIntBase10 (envLimitString env))

/-- Counterexample to C5: for the non-numeric environment value "abc" the
gate is not constructed with the default limit 10 — `parseInt` yields
`NaN` and construction fails. -/
theorem default_limit_counterexample :
    dbLimitConstruct (some "abc") ≠ Except.ok 10 := by
  intro h
  have hval : dbLimitConstruct (some "abc") =
      Except.error ConfigError.invalidConfiguration := rfl
  rw [hval] at h
  exact Except.noConfusion h

/-- C5 (amended): an absent or empty environment value falls back to the
default limit 10 and construction succeeds; a non-empty value on which
`parseInt` yields `NaN` (a non-numeric value) makes gate construction
fail with `InvalidConfiguration` instead of defaulting to 10. -/
theorem env_limit_construction (s : String) (hne : s ≠ "")
    (hnan : parseIntBase10 s = none) :
    dbLimitConstruct none = Except.ok 10 ∧
    dbLimitConstruct (some "") = Except.ok 10 ∧
    dbLimitConstruct (some s) = Except.error ConfigError.invalidConfiguration := by
  refine ⟨rfl, rfl, ?_⟩
  have h1 : envLimitString (some s) = s := by
    show (if s = "" then "10" else s) = s
    exact if_neg hne
  unfold dbLimitConstruct
  rw [h1, hnan]
  rfl

/-- Witness for C5 (amended) at the non-numeric value "abc". -/
theorem env_limit_construction_witness :
    ("abc" ≠ "") ∧ parseIntBase10 "abc" = none ∧
    dbLimitConstruct none = Except.ok 10 ∧
    dbLimitConstruct (some "abc") = Except.error ConfigError.invalidConfiguration :=
  ⟨by decide, rfl, (env_limit_construction "abc" (by decide) rfl).1,
   (env_limit_construction "abc" (by decide) rfl).2.2⟩

/-- C6: a limit value that is not a positive integer (zero or negative)
makes gate construction fail with `InvalidConfiguration`, and no
successful construction ever yields a ceiling below 1 — so no usable gate
that admits nothing forever is ever produced. -/
theorem nonpositive_limit_rejected (z : Int) (hz : z ≤ 0) :
    pLimitMake (some z) = Except.error ConfigError.invalidConfiguration ∧
    ∀ (m : Option Int) (n : Nat), pLimitMake m = Except.ok n → 1 ≤ n := by
  constructor
  · show (if 0 < z then Except.ok z.toNat
        else Except.error ConfigError.invalidConfiguration) =
      Except.error ConfigError.invalidConfiguration
    have hz' : ¬ 0 < z := by omega
    rw [if_neg hz']
  · intro m n hm
    cases m with
    | none => exact Except.noConfusion hm
    | some w =>
        simp only [pLimitMake] at hm
        by_cases hw : 0 < w
        · rw [if_pos hw] at hm
          have hn : w.toNat = n := by injection hm
          omega
        · rw [if_neg hw] at hm
          exact Except.noConfusion hm

/-- Witness for C6 at limit 0: construction fails with
`InvalidConfiguration`. -/
theorem nonpositive_limit_rejected_witness :
    (0 : Int) ≤ 0 ∧
    pLimitMake (some 0) = Except.error ConfigError.invalidConfiguration :=
  ⟨by decide, (nonpositive_limit_rejected 0 (by decide)).1⟩

/-! ### The two `dbLimit` wrapper variants -/

/-- An argument given to the part_001 `dbLimit`: either a zero-argument
function producing a deferred outcome (work begins only when the gate
invokes it), or an already-started promise whose eventual outcome is
already determined by its own in-flight work. -/
inductive DBArg (ε α : Type) where
  | fn (f : Unit → Except ε α)
  | promise (p : Except ε α)

/-- part_000: `export const dbLimit = (fn) => limit(fn);` — the argument
is submitted to the limiter unchanged. -/
def dbLimitV0 (f : Unit → Except ε α) : Unit → Except ε α := f

/-- part_001: `dbLimit(operation)` tests
`typeof operation === "function"` (the match on `DBArg`); a function is
submitted to the limiter as `() => operation()`, anything else — e.g. a
promise — as `() => operation`. -/
def dbLimitV1 : DBArg ε α → (Unit → Except ε α)
  | .fn f => fun _ => f ()
  | .promise p => fun _ => p

/-- The usage error the spec prescribes for an already-started future. -/
inductive UsageError where
  | alreadyStartedFuture
deriving DecidableEq, Repr

/-- part_001's `dbLimit` with an explicit usage-error channel: the source
accepts both argument shapes and never raises a usage error. -/
def dbLimitV1Checked : DBArg ε α → Except UsageError (Unit → Except ε α)
  | .fn f => Except.ok (fun _ => f ())
  | .promise p => Except.ok (fun _ => p)

/-- Follows the spec's words (§9): an already-started future "should be
treated as a usage error, not a supported mode"; only a zero-argument
deferred operation is accepted. -/
def dbLimitSpecStrict : DBArg ε α → Except UsageError (Unit → Except ε α)
  | .fn f => Except.ok (fun _ => f ())
  | .promise _ => Except.error UsageError.alreadyStartedFuture

/-- Counterexample to C7: part_001 passes an already-started promise
through successfully instead of treating it as a usage error. -/
theorem promise_usage_error_counterexample :
    dbLimitV1Checked (DBArg.promise (Except.ok 0 : Except Unit Nat)) ≠
      Except.error UsageError.alreadyStartedFuture := by
  intro h
  exact Except.noConfusion h

/-- C7 (amended): a zero-argument deferred operation is accepted and
invoked only at admission; an already-started promise is also accepted by
part_001 as a documented supported mode (awaited under the gate), not
rejected as a usage error — unlike the spec's strict contract, which
rejects it. -/
theorem argument_modes (ε α : Type) (f : Unit → Except ε α)
    (p : Except ε α) :
    dbLimitV1Checked (DBArg.fn f) = Except.ok (fun _ => f ()) ∧
    dbLimitV1Checked (DBArg.promise p) = Except.ok (fun _ => p) ∧
    dbLimitSpecStrict (DBArg.promise p) =
      Except.error UsageError.alreadyStartedFuture :=
  ⟨rfl, rfl, rfl⟩

/-- C9: the two dbLimit variants are equivalent on a zero-argument
function `f`: submitting `f` itself (part_000) and submitting the wrapper
`() => f()` (part_001) hand the limiter the very same operation, hence
the same eventual result or failure under the same gate state. -/
theorem variants_equivalent (ε α : Type) (f : Unit → Except ε α) :
    dbLimitV0 f = dbLimitV1 (DBArg.fn f) := by
  funext u
  cases u
  rfl

/-- C10: part_001 on a non-function argument with eventual outcome `p`
does not throw: the thunk submitted to the limiter is the constant
function returning the already-started promise itself — no work is
deferred to admission, only the await occupies a gate slot — and the
delivered outcome is exactly the promise's resolved value or rejection
reason `p`. -/
theorem promise_argument_transparent (ε α : Type) (p : Except ε α) :
    dbLimitV1 (DBArg.promise p) = (fun _ => p) ∧
    dbLimitV1 (DBArg.promise p) () = p :=
  ⟨rfl, rfl⟩

end DbLimit
